import Mathlib

/-!
Verification development for the `Konva.PolyLine` shape
(`src/src/shapes/PolyLine.js`).

The shape holds an exterior ring (flat list of coordinates, alternating
x, y), a list of interior rings, a `tension` scalar, and `closed` /
`bezier` flags.  Rendering emits an ordered sequence of path-drawing
primitives on the 2D context; a memoized tension-point list is kept per
instance.

Modelling conventions:
* JS numbers are modelled as `ℚ`.  The host square root
  (`Math.sqrt`, a floating-point primitive) is abstracted as an explicit
  function parameter `sq : ℚ → ℚ`; no claim below depends on its values.
* An out-of-range JS array read yields `undefined`; coordinate reads are
  therefore modelled with `List.get?` and primitive arguments have type
  `Option ℚ` (`none` = `undefined`).  Natural-number truncated
  subtraction agrees with the JS index arithmetic for all even-length
  point sequences (the data-model invariant); rings are built with
  `flat` from lists of pairs so the invariant holds by construction.
* `Konva.Util._getControlPoints`, `Konva.Util._expandPoints` and the
  node cache helpers (`_getCache` / `_clearCache`) live outside `src/`;
  they are modelled from the spec (see their doc comments).
-/

/-- Path-drawing primitives of the host 2D context, in emission order
(spec section 6).  Coordinate arguments are `Option ℚ`; `none` models a
JS `undefined` coordinate read out of range. -/
inductive Prim where
  | beginPath : Prim
  | moveTo (x y : Option ℚ) : Prim
  | lineTo (x y : Option ℚ) : Prim
  | quadraticCurveTo (cx cy x y : Option ℚ) : Prim
  | bezierCurveTo (c1x c1y c2x c2y x y : Option ℚ) : Prim
  | closePath : Prim
  | fillStrokeShape : Prim
  | strokeShape : Prim
  deriving DecidableEq

/-- `isBezier p` holds exactly when `p` is a `bezierCurveTo` primitive. -/
def isBezier : Prim → Prop
  | Prim.bezierCurveTo _ _ _ _ _ _ => True
  | _ => False

instance (p : Prim) : Decidable (isBezier p) := by
  cases p <;> simp [isBezier] <;> infer_instance

/-- Group a flat coordinate list into (x, y) pairs, as every algorithm in
the file indexes it (spec section 3: sequences of 2D points). -/
def toPairs : List ℚ → List (ℚ × ℚ)
  | x :: y :: rest => (x, y) :: toPairs rest
  | _ => []

/-- Flatten a list of points into the flat JS representation
`[x0, y0, x1, y1, ...]`.  By construction the result has even length,
the data-model invariant of the spec. -/
def flat (ps : List (ℚ × ℚ)) : List ℚ :=
  ps.flatMap fun q => [q.1, q.2]

/-- The two bezier control points produced for one interior point
(`p1` behind, `p2` ahead), the return value of the control-point
solver. -/
structure ControlPair where
  p1x : ℚ
  p1y : ℚ
  p2x : ℚ
  p2y : ℚ
  deriving DecidableEq

/-- Modelled from the spec: `Konva.Util._getControlPoints` is not under
`src/` (spec section 4.1, ControlPointSolver).  Given three consecutive
points and a tension scalar it blends the tangent at the middle point by
the two adjacent segment lengths and scales by the tension; `sq`
abstracts the host square root used for the segment lengths.  Degenerate
case per the spec: a zero adjacent segment length returns the current
point itself as both control points. -/
def _getControlPoints (sq : ℚ → ℚ) (x0 y0 x1 y1 x2 y2 t : ℚ) : ControlPair :=
  let d01 := sq ((x1 - x0) * (x1 - x0) + (y1 - y0) * (y1 - y0))
  let d12 := sq ((x2 - x1) * (x2 - x1) + (y2 - y1) * (y2 - y1))
  if d01 = 0 ∨ d12 = 0 then ⟨x1, y1, x1, y1⟩
  else
    let fa := t * d01 / (d01 + d12)
    let fb := t * d12 / (d01 + d12)
    ⟨x1 - fa * (x2 - x0), y1 - fa * (y2 - y0),
     x1 + fb * (x2 - x0), y1 + fb * (y2 - y0)⟩

/-- Modelled from the spec: the open-case assembly of
`Konva.Util._expandPoints` (spec section 4.2, TensionExpander), walking
every interior point with its two ring-adjacent neighbours.  Each
interior point contributes six values — its leading control point, the
point itself, and its trailing control point — so that the output
aligns 1:1 with the six-at-a-time consumption of the path emitter
(spec sections 4.2/4.3). -/
def expandAux (sq : ℚ → ℚ) (t : ℚ) (prev : ℚ × ℚ) : List (ℚ × ℚ) → List ℚ
  | b :: c :: rest =>
    let cp := _getControlPoints sq prev.1 prev.2 b.1 b.2 c.1 c.2 t
    cp.p1x :: cp.p1y :: b.1 :: b.2 :: cp.p2x :: cp.p2y ::
      expandAux sq t b (c :: rest)
  | _ => []

/-- Modelled from the spec (spec section 4.2): the full open expansion
walks consecutive point triples from the start of the sequence. -/
def expandPairs (sq : ℚ → ℚ) (t : ℚ) : List (ℚ × ℚ) → List ℚ
  | a :: rest => expandAux sq t a rest
  | [] => []

/-- Modelled from the spec: `Konva.Util._expandPoints(points, tension)`
on the flat representation (not under `src/`; spec section 4.2). -/
def _expandPoints (sq : ℚ → ℚ) (p : List ℚ) (tension : ℚ) : List ℚ :=
  expandPairs sq tension (toPairs p)

/-- Source `_getTensionPointsClosed` (PolyLine.js lines 160-200): the
wraparound control points for the last→first segment are computed and
spliced around the open expansion, followed by the trailing block that
routes the curve through the last point back to the first.  Indices
mirror the JS reads `p[len-2] …`; `getD … 0` stands for the in-range
reads (all indices are in range for rings of at least two points, and
every theorem below assumes at least three). -/
def _getTensionPointsClosed (sq : ℚ → ℚ) (p : List ℚ) (tension : ℚ) : List ℚ :=
  let len := p.length
  let fcp := _getControlPoints sq (p.getD (len - 2) 0) (p.getD (len - 1) 0)
      (p.getD 0 0) (p.getD 1 0) (p.getD 2 0) (p.getD 3 0) tension
  let lcp := _getControlPoints sq (p.getD (len - 4) 0) (p.getD (len - 3) 0)
      (p.getD (len - 2) 0) (p.getD (len - 1) 0) (p.getD 0 0) (p.getD 1 0) tension
  [fcp.p2x, fcp.p2y]
    ++ _expandPoints sq p tension
    ++ [lcp.p1x, lcp.p1y, p.getD (len - 2) 0, p.getD (len - 1) 0,
        lcp.p2x, lcp.p2y, fcp.p1x, fcp.p1y, p.getD 0 0, p.getD 1 0]

/-- Attribute names of the Konva property system relevant to this shape.
`points` is included because the source's cache subscription names it,
even though the shape defines no such property (its point sequence
property is `exterior`). -/
inductive Attr where
  | points | exterior | interiors | tension | closed | bezier
  deriving DecidableEq

/-- The attributes whose change events the `___init` subscription listens
to (PolyLine.js line 37:
`pointsChange.konva tensionChange.konva closedChange.konva bezierChange.konva`). -/
def subscribedAttrs : List Attr :=
  [Attr.points, Attr.tension, Attr.closed, Attr.bezier]

/-- The shape instance state: the five attributes plus the per-instance
memoized tension-point cache (`none` = cache empty / cleared). -/
structure PolyLine where
  exterior : List ℚ
  interiors : List (List ℚ)
  tension : ℚ
  closed : Bool
  bezier : Bool
  tensionPointsCache : Option (List ℚ)
  deriving DecidableEq

/-- Modelled from the spec: `Node._clearCache('tensionPoints')` (cache
helper outside `src/`; spec section 3, memoized tension-point cache). -/
def clearTensionCache (s : PolyLine) : PolyLine :=
  { s with tensionPointsCache := none }

/-- Firing the change event for attribute `a`: the `___init` subscription
clears the tension-point cache exactly when `a`'s change event is among
the subscribed ones. -/
def fireAttrChange (a : Attr) (s : PolyLine) : PolyLine :=
  if a ∈ subscribedAttrs then clearTensionCache s else s

/-- Attribute setter for `exterior` (generated by
`Factory.addGetterSetter`); fires `exteriorChange`. -/
def setExterior (v : List ℚ) (s : PolyLine) : PolyLine :=
  fireAttrChange Attr.exterior { s with exterior := v }

/-- Attribute setter for `interiors`; fires `interiorsChange`. -/
def setInteriors (v : List (List ℚ)) (s : PolyLine) : PolyLine :=
  fireAttrChange Attr.interiors { s with interiors := v }

/-- Attribute setter for `tension`; fires `tensionChange`. -/
def setTension (v : ℚ) (s : PolyLine) : PolyLine :=
  fireAttrChange Attr.tension { s with tension := v }

/-- Attribute setter for `closed`; fires `closedChange`. -/
def setClosed (v : Bool) (s : PolyLine) : PolyLine :=
  fireAttrChange Attr.closed { s with closed := v }

/-- Attribute setter for `bezier`; fires `bezierChange`. -/
def setBezier (v : Bool) (s : PolyLine) : PolyLine :=
  fireAttrChange Attr.bezier { s with bezier := v }

/-- The state of a freshly constructed shape: attribute defaults from the
`addGetterSetter` calls, `setInteriors([])` from `___init`, empty
cache. -/
def defaultPolyLine : PolyLine :=
  { exterior := [], interiors := [], tension := 0, closed := false,
    bezier := false, tensionPointsCache := none }

/-- Source `_getTensionPoints` (PolyLine.js lines 141-147): closed rings
use the spliced closed expansion, open rings the plain expansion of the
exterior. -/
def _getTensionPoints (sq : ℚ → ℚ) (s : PolyLine) : List ℚ :=
  if s.closed then _getTensionPointsClosed sq s.exterior s.tension
  else _expandPoints sq s.exterior s.tension

/-- The value `getTensionPoints` returns: the cached list when the cache
is populated, otherwise a fresh computation (modelled from the spec:
`Node._getCache` is outside `src/`; spec section 3). -/
def tensionPointsVal (sq : ℚ → ℚ) (s : PolyLine) : List ℚ :=
  s.tensionPointsCache.getD (_getTensionPoints sq s)

/-- Source `getTensionPoints` (PolyLine.js lines 138-140) as a state
transformer: returns the (possibly cached) list and stores it in the
cache. -/
def getTensionPoints (sq : ℚ → ℚ) (s : PolyLine) : List ℚ × PolyLine :=
  match s.tensionPointsCache with
  | some tp => (tp, s)
  | none =>
    let tp := _getTensionPoints sq s
    (tp, { s with tensionPointsCache := some tp })

/-- The straight-mode loop of `_renderLine`
(`for (n = 2; n < length; n += 2) lineTo(points[n], points[n+1])`),
applied to `points.drop 2`: one `lineTo` per remaining point; an odd
trailing coordinate yields an undefined y, as in JS. -/
def straightTail : List ℚ → List Prim
  | [] => []
  | [x] => [Prim.lineTo (some x) none]
  | x :: y :: rest => Prim.lineTo (some x) (some y) :: straightTail rest

/-- The bezier-mode loop of `_renderLine`
(`n = 2; while (n < length) bezierCurveTo(points[n++] × 6)`), applied to
`points.drop 2`: the loop test `n < length` means at least one
coordinate remains, and each iteration reads six coordinates (possibly
past the end, giving `undefined`) and advances by six. -/
def bezierTail : List ℚ → List Prim
  | [] => []
  | [a] => [Prim.bezierCurveTo (some a) none none none none none]
  | [a, b] => [Prim.bezierCurveTo (some a) (some b) none none none none]
  | [a, b, c] => [Prim.bezierCurveTo (some a) (some b) (some c) none none none]
  | [a, b, c, d] =>
    [Prim.bezierCurveTo (some a) (some b) (some c) (some d) none none]
  | [a, b, c, d, e] =>
    [Prim.bezierCurveTo (some a) (some b) (some c) (some d) (some e) none]
  | a :: b :: c :: d :: e :: f :: rest =>
    Prim.bezierCurveTo (some a) (some b) (some c) (some d) (some e) (some f)
      :: bezierTail rest

/-- The tension-mode loop of `_renderLine`
(`while (n < len - 2) bezierCurveTo(tp[n++] × 6)`), applied to
`tp.drop n₀`: the loop test `n < len - 2` means at least three values
remain at the cursor, and each iteration reads six (the last three via
possibly-out-of-range reads) and advances by six. -/
def bezierLoopT : List ℚ → List Prim
  | [] => []
  | [_] => []
  | [_, _] => []
  | [a, b, c] => [Prim.bezierCurveTo (some a) (some b) (some c) none none none]
  | [a, b, c, d] =>
    [Prim.bezierCurveTo (some a) (some b) (some c) (some d) none none]
  | [a, b, c, d, e] =>
    [Prim.bezierCurveTo (some a) (some b) (some c) (some d) (some e) none]
  | a :: b :: c :: d :: e :: f :: rest =>
    Prim.bezierCurveTo (some a) (some b) (some c) (some d) (some e) (some f)
      :: bezierLoopT rest

/-- The tension branch of `_renderLine` (PolyLine.js lines 88-115), after
the initial `moveTo`: closed rings run the cubic loop over the whole
tension-point list; open rings emit a leading quadratic, run the loop
from offset 4, and emit a trailing quadratic ending at the ring's last
point. -/
def tensionEmit (sq : ℚ → ℚ) (s : PolyLine) (points : List ℚ) : List Prim :=
  let tp := tensionPointsVal sq s
  let len := tp.length
  if s.closed then bezierLoopT tp
  else
    Prim.quadraticCurveTo (tp.get? 0) (tp.get? 1) (tp.get? 2) (tp.get? 3)
      :: bezierLoopT (tp.drop 4)
      ++ [Prim.quadraticCurveTo (tp.get? (len - 2)) (tp.get? (len - 1))
            (points.get? (points.length - 2)) (points.get? (points.length - 1))]

/-- Source `_renderLine` (PolyLine.js lines 72-136): empty sequence emits
nothing; otherwise a `moveTo` to the first point followed by the tension
branch when `tension ≠ 0 && length > 4`, else the bezier chain when
`bezier`, else straight segments. -/
def _renderLine (sq : ℚ → ℚ) (s : PolyLine) (points : List ℚ) : List Prim :=
  if points.length = 0 then []
  else
    Prim.moveTo (points.get? 0) (points.get? 1)
      :: (if s.tension ≠ 0 ∧ 4 < points.length then tensionEmit sq s points
          else if s.bezier then bezierTail (points.drop 2)
          else straightTail (points.drop 2))

/-- Source `_sceneFunc` (PolyLine.js lines 44-70): begin the path, render
the exterior, then for each interior ring in order render it, draw a
line to that ring's first point and move (undrawn) to the exterior's
last point; finally seal with a line to the exterior's first point
(closed, with interiors) or a native close (closed, no interiors) and
fill-and-stroke, or stroke only (open). -/
def _sceneFunc (sq : ℚ → ℚ) (s : PolyLine) : List Prim :=
  let exterior := s.exterior
  Prim.beginPath
    :: _renderLine sq s exterior
    ++ (s.interiors.flatMap fun r =>
        _renderLine sq s r
          ++ [Prim.lineTo (r.get? 0) (r.get? 1),
              Prim.moveTo (exterior.get? (exterior.length - 2))
                (exterior.get? (exterior.length - 1))])
    ++ (if s.closed then
          (if 0 < s.interiors.length then
            [Prim.lineTo (exterior.get? 0) (exterior.get? 1)]
          else [Prim.closePath])
            ++ [Prim.fillStrokeShape]
        else [Prim.strokeShape])

/-- The bounding box returned by `getSelfRect`; all four fields are
rounded integers. -/
structure SelfRect where
  x : ℤ
  y : ℤ
  width : ℤ
  height : ℤ
  deriving DecidableEq

/-- The min/max accumulator of the `getSelfRect` scan. -/
structure MinMax where
  minX : ℚ
  maxX : ℚ
  minY : ℚ
  maxY : ℚ
  deriving DecidableEq

/-- The scan loop of `getSelfRect`
(`for (i = 0; i < points.length / 2; i++)` over `points[2i]`,
`points[2i+1]`), folding min/max per axis over the coordinate pairs. -/
def minMaxScan : List ℚ → MinMax → MinMax
  | x :: y :: rest, m =>
    minMaxScan rest
      ⟨min m.minX x, max m.maxX x, min m.minY y, max m.maxY y⟩
  | _, m => m

/-- Source `getSelfRect` (PolyLine.js lines 209-235): select the
tension-expanded points (computed fresh, bypassing the cache) when
`tension ≠ 0`, otherwise the raw exterior; initialize min/max from the
first coordinate pair with no emptiness guard; round only at the end.
An empty selected list makes `points[0]` and `points[1]` undefined in
JS, so every field is NaN: modelled as `none`. -/
def getSelfRect (sq : ℚ → ℚ) (s : PolyLine) : Option SelfRect :=
  let points := if s.tension ≠ 0 then _getTensionPoints sq s else s.exterior
  match points with
  | px :: py :: _ =>
    let m := minMaxScan points ⟨px, px, py, py⟩
    some ⟨round m.minX, round m.minY, round (m.maxX - m.minX),
          round (m.maxY - m.minY)⟩
  | _ => none

/-- A JS argument to the `interior` accessor: a numeric index or a ring
value. -/
inductive JsArg where
  | num (n : ℕ) : JsArg
  | arr (r : List ℚ) : JsArg
  deriving DecidableEq

/-- JS read `interiors[k]`: a numeric key reads the slot (out of range
gives `undefined`, modelled `none`); a non-numeric key is not an array
index and yields `undefined`. -/
def jsIndexRead (interiors : List (List ℚ)) : JsArg → Option (List ℚ)
  | JsArg.num i => interiors.get? i
  | JsArg.arr _ => none

/-- JS write `interiors[i] = v` for a numeric in-range or extending
index; holes created by a write past the end are modelled as empty
rings, and the ill-typed key/value shapes (outside the spec's data
model) leave the list unchanged. -/
def jsIndexWrite (interiors : List (List ℚ)) : JsArg → JsArg → List (List ℚ)
  | JsArg.num i, JsArg.arr r =>
    if i < interiors.length then interiors.set i r
    else interiors ++ List.replicate (i - interiors.length) [] ++ [r]
  | _, _ => interiors

/-- Result of a call to the `interior` accessor: the ring value of a
read (`none` = `undefined`), or the shape itself (`this`) after a
write. -/
inductive InteriorResult where
  | ringVal (r : Option (List ℚ)) : InteriorResult
  | self : InteriorResult
  deriving DecidableEq

/-- Source `interior` (PolyLine.js lines 148-159), dispatching on
`arguments.length`: one argument reads the slot, two arguments write it
(through `setInteriors`) and return the shape, and any other count
throws `Error('Unknown operation polyline')`.  The state is returned
alongside so the error case can be seen to leave it unchanged. -/
def PolyLine.interior (s : PolyLine) (args : List JsArg) :
    Except String InteriorResult × PolyLine :=
  if args.length = 1 then
    (Except.ok (InteriorResult.ringVal
      (jsIndexRead s.interiors (args.getD 0 (JsArg.num 0)))), s)
  else if args.length = 2 then
    (Except.ok InteriorResult.self,
     setInteriors
       (jsIndexWrite s.interiors (args.getD 0 (JsArg.num 0))
         (args.getD 1 (JsArg.num 0))) s)
  else
    (Except.error "Unknown operation polyline", s)

/-- A shape state with the given attributes and an empty cache, as after
construction followed by attribute assignment. -/
def mkPolyLine (ext : List ℚ) (ints : List (List ℚ)) (t : ℚ)
    (cl bz : Bool) : PolyLine :=
  { exterior := ext, interiors := ints, tension := t, closed := cl,
    bezier := bz, tensionPointsCache := none }

/-- A concrete stand-in for the host square root, used only to
instantiate closed statements; no theorem below depends on the values
`sq` produces. -/
def idQ : ℚ → ℚ := fun q => q

/-- A second concrete stand-in for the host square root that reports
every segment as degenerate, making the control-point solver take its
identity fallback; used to instantiate closed statements whose
tension-point lists must be evaluated concretely. -/
def sqZero : ℚ → ℚ := fun _ => 0

/-- The four rendering modes of the path emitter (spec section 4.3). -/
inductive RenderMode where
  | emptyMode : RenderMode
  | tensionMode : RenderMode
  | bezierMode : RenderMode
  | straightMode : RenderMode
  deriving DecidableEq

/-- The spec's priority-ordered dispatch (section 4.3): empty sequence,
then tension (`tension ≠ 0` and more than two points, i.e. more than
four coordinates), then bezier, then straight. -/
def resolveMode (tension : ℚ) (bezier : Bool) (points : List ℚ) : RenderMode :=
  if points.length = 0 then RenderMode.emptyMode
  else if tension ≠ 0 ∧ 4 < points.length then RenderMode.tensionMode
  else if bezier then RenderMode.bezierMode
  else RenderMode.straightMode

/-- Per-ring emission as the spec words it: resolve the mode once, then
emit according to the resolved mode. -/
def specRender (sq : ℚ → ℚ) (s : PolyLine) (points : List ℚ) : List Prim :=
  match resolveMode s.tension s.bezier points with
  | RenderMode.emptyMode => []
  | RenderMode.tensionMode =>
    Prim.moveTo (points.get? 0) (points.get? 1) :: tensionEmit sq s points
  | RenderMode.bezierMode =>
    Prim.moveTo (points.get? 0) (points.get? 1) :: bezierTail (points.drop 2)
  | RenderMode.straightMode =>
    Prim.moveTo (points.get? 0) (points.get? 1) :: straightTail (points.drop 2)

/-- The bezier-mode chain as claim C3 words it: one cubic per COMPLETE
group of three points (six coordinates) after the first point; trailing
points that do not complete a group are dropped. -/
def completeGroups : List ℚ → List Prim
  | c1 :: c2 :: c3 :: c4 :: x :: y :: rest =>
    Prim.bezierCurveTo (some c1) (some c2) (some c3) (some c4) (some x) (some y)
      :: completeGroups rest
  | _ => []

/-- Claim C3's described bezier-mode emission for a nonempty sequence:
one `moveTo` then only the complete groups. -/
def claimC3Render (points : List ℚ) : List Prim :=
  Prim.moveTo (points.get? 0) (points.get? 1) :: completeGroups (points.drop 2)

/-- The x coordinate of a ring's last point as the source reads it
(`r[r.length - 2]`). -/
def lastPointX (r : List ℚ) : Option ℚ := r.get? (r.length - 2)

/-- The y coordinate of a ring's last point as the source reads it
(`r[r.length - 1]`). -/
def lastPointY (r : List ℚ) : Option ℚ := r.get? (r.length - 1)

/-- Interior-ring blocks as amended claim C2 describes them: for each
interior ring in order, that ring's primitives, a drawn line segment
back to that ring's own first point (sealing the interior ring), then
an undrawn move to the exterior's last point. -/
def interiorBlocksAmended (sq : ℚ → ℚ) (s : PolyLine) :
    List (List ℚ) → List Prim
  | [] => []
  | r :: rest =>
    _renderLine sq s r
      ++ [Prim.lineTo (r.get? 0) (r.get? 1),
          Prim.moveTo (lastPointX s.exterior) (lastPointY s.exterior)]
      ++ interiorBlocksAmended sq s rest

/-- Interior-ring blocks as claim C2 literally words them: after each
ring's primitives, a DRAWN line segment out to the exterior ring's last
point (the claimed "cut line"), then the undrawn move to the exterior's
last point. -/
def interiorBlocksClaimed (sq : ℚ → ℚ) (s : PolyLine) :
    List (List ℚ) → List Prim
  | [] => []
  | r :: rest =>
    _renderLine sq s r
      ++ [Prim.lineTo (lastPointX s.exterior) (lastPointY s.exterior),
          Prim.moveTo (lastPointX s.exterior) (lastPointY s.exterior)]
      ++ interiorBlocksClaimed sq s rest

/-- The terminal primitives after all interiors (claim C2 / spec 4.4):
closed with holes seals back to the exterior's first point then
fills-and-strokes, closed without holes closes natively then
fills-and-strokes, open strokes only. -/
def sceneTerminal (closed : Bool) (interiors : List (List ℚ))
    (ext : List ℚ) : List Prim :=
  if closed then
    (if 0 < interiors.length then [Prim.lineTo (ext.get? 0) (ext.get? 1)]
     else [Prim.closePath])
      ++ [Prim.fillStrokeShape]
  else [Prim.strokeShape]

/-- Full-scene emission as amended claim C2 describes it. -/
def specSceneAmended (sq : ℚ → ℚ) (s : PolyLine) : List Prim :=
  Prim.beginPath
    :: _renderLine sq s s.exterior
    ++ interiorBlocksAmended sq s s.interiors
    ++ sceneTerminal s.closed s.interiors s.exterior

/-- Full-scene emission as claim C2 literally words it (drawn cut line
out to the exterior's last point). -/
def specSceneClaimed (sq : ℚ → ℚ) (s : PolyLine) : List Prim :=
  Prim.beginPath
    :: _renderLine sq s s.exterior
    ++ interiorBlocksClaimed sq s s.interiors
    ++ sceneTerminal s.closed s.interiors s.exterior

/-- Fold step for the minimum of a coordinate list (`none` = no
coordinates seen). -/
def ominQ (x : ℚ) : Option ℚ → Option ℚ
  | none => some x
  | some m => some (min x m)

/-- Fold step for the maximum of a coordinate list. -/
def omaxQ (x : ℚ) : Option ℚ → Option ℚ
  | none => some x
  | some m => some (max x m)

/-- The minimum of a coordinate list, `none` when empty. -/
def minOf (l : List ℚ) : Option ℚ := l.foldr ominQ none

/-- The maximum of a coordinate list, `none` when empty. -/
def maxOf (l : List ℚ) : Option ℚ := l.foldr omaxQ none

instance : LeftCommutative ominQ :=
  ⟨fun a b c => by cases c <;> simp [ominQ, min_comm, min_left_comm]⟩

instance : LeftCommutative omaxQ :=
  ⟨fun a b c => by cases c <;> simp [omaxQ, max_comm, max_left_comm]⟩

/-- The bounding box as claims C7/C8 describe it: per-axis min and max
over all (x, y) pairs of the selected point set, rounded once at the
end; undefined (`none`) when there are no points. -/
def specBox (ps : List (ℚ × ℚ)) : Option SelfRect :=
  match minOf (ps.map Prod.fst), maxOf (ps.map Prod.fst),
      minOf (ps.map Prod.snd), maxOf (ps.map Prod.snd) with
  | some mnx, some mxx, some mny, some mxy =>
    some ⟨round mnx, round mny, round (mxx - mnx), round (mxy - mny)⟩
  | _, _, _, _ => none

/-- The claim C1 failing trace: construct the shape, set the exterior to
`[0,0,1,0,2,0]`, set tension to 1, read `getTensionPoints` (populating
the cache), then set the exterior to `[0,0,5,0,9,0]`.  Because the
`___init` subscription listens for `pointsChange` while the point
property fires `exteriorChange`, the cache survives the second
exterior assignment. -/
def c1TraceState (sq : ℚ → ℚ) : PolyLine :=
  setExterior (flat [(0, 0), (5, 0), (9, 0)])
    (getTensionPoints sq
      (setTension 1
        (setExterior (flat [(0, 0), (1, 0), (2, 0)]) defaultPolyLine))).2

/-! Structural lemmas about the flat point representation. -/

theorem flat_cons (q : ℚ × ℚ) (ps : List (ℚ × ℚ)) :
    flat (q :: ps) = q.1 :: q.2 :: flat ps := rfl

theorem flat_length (ps : List (ℚ × ℚ)) : (flat ps).length = 2 * ps.length := by
  induction ps with
  | nil => rfl
  | cons q rest ih => rw [flat_cons]; simp only [List.length_cons, ih]; omega

theorem toPairs_flat (ps : List (ℚ × ℚ)) : toPairs (flat ps) = ps := by
  induction ps with
  | nil => rfl
  | cons q rest ih => rw [flat_cons]; simp only [toPairs, ih]

theorem flat_get?_even (ps : List (ℚ × ℚ)) (i : ℕ) :
    (flat ps).get? (2 * i) = (ps.get? i).map Prod.fst := by
  induction ps generalizing i with
  | nil => simp [flat]
  | cons q rest ih =>
    cases i with
    | zero => rw [flat_cons]; rfl
    | succ j =>
      rw [flat_cons]
      have h2 : 2 * (j + 1) = 2 * j + 1 + 1 := by omega
      rw [h2, List.get?_cons_succ, List.get?_cons_succ, ih, List.get?_cons_succ]

theorem flat_get?_odd (ps : List (ℚ × ℚ)) (i : ℕ) :
    (flat ps).get? (2 * i + 1) = (ps.get? i).map Prod.snd := by
  induction ps generalizing i with
  | nil => simp [flat]
  | cons q rest ih =>
    cases i with
    | zero => rw [flat_cons]; rfl
    | succ j =>
      rw [flat_cons]
      have h2 : 2 * (j + 1) + 1 = 2 * j + 1 + 1 + 1 := by omega
      rw [h2, List.get?_cons_succ, List.get?_cons_succ, ih, List.get?_cons_succ]

theorem flat_getD_even (ps : List (ℚ × ℚ)) (i : ℕ) (h : i < ps.length) :
    (flat ps).getD (2 * i) 0 = (ps.getD i (0, 0)).1 := by
  have hg := flat_get?_even ps i
  rw [List.get?_eq_get h] at hg
  rw [List.getD_eq_get?, hg, List.getD_eq_get?, List.get?_eq_get h]
  rfl

theorem flat_getD_odd (ps : List (ℚ × ℚ)) (i : ℕ) (h : i < ps.length) :
    (flat ps).getD (2 * i + 1) 0 = (ps.getD i (0, 0)).2 := by
  have hg := flat_get?_odd ps i
  rw [List.get?_eq_get h] at hg
  rw [List.getD_eq_get?, hg, List.getD_eq_get?, List.get?_eq_get h]
  rfl

/-! Emission-loop lemmas. -/

theorem straightTail_flat (ps : List (ℚ × ℚ)) :
    straightTail (flat ps)
      = ps.map fun r => Prim.lineTo (some r.1) (some r.2) := by
  induction ps with
  | nil => rfl
  | cons q rest ih => rw [flat_cons]; simp only [straightTail, ih, List.map]

theorem bezierTail_length (l : List ℚ) :
    (bezierTail l).length = (l.length + 5) / 6 := by
  induction l using bezierTail.induct with
  | case1 => rfl
  | case2 a => simp [bezierTail]
  | case3 a b => simp [bezierTail]
  | case4 a b c => simp [bezierTail]
  | case5 a b c d => simp [bezierTail]
  | case6 a b c d e => simp [bezierTail]
  | case7 a b c d e f rest ih =>
    simp only [bezierTail, List.length_cons, ih]
    omega

theorem bezierTail_all_bezier (l : List ℚ) :
    ∀ pr ∈ bezierTail l, isBezier pr := by
  induction l using bezierTail.induct with
  | case1 => simp [bezierTail]
  | case2 a => simp [bezierTail, isBezier]
  | case3 a b => simp [bezierTail, isBezier]
  | case4 a b c => simp [bezierTail, isBezier]
  | case5 a b c d => simp [bezierTail, isBezier]
  | case6 a b c d e => simp [bezierTail, isBezier]
  | case7 a b c d e f rest ih =>
    simp only [bezierTail, List.forall_mem_cons]
    exact ⟨trivial, ih⟩

theorem bezierLoopT_length (l : List ℚ) :
    (bezierLoopT l).length = (l.length + 3) / 6 := by
  induction l using bezierLoopT.induct with
  | case1 => rfl
  | case2 a => simp [bezierLoopT]
  | case3 a b => simp [bezierLoopT]
  | case4 a b c => simp [bezierLoopT]
  | case5 a b c d => simp [bezierLoopT]
  | case6 a b c d e => simp [bezierLoopT]
  | case7 a b c d e f rest ih =>
    simp only [bezierLoopT, List.length_cons, ih]
    omega

theorem bezierLoopT_all_bezier (l : List ℚ) :
    ∀ pr ∈ bezierLoopT l, isBezier pr := by
  induction l using bezierLoopT.induct with
  | case1 => simp [bezierLoopT]
  | case2 a => simp [bezierLoopT]
  | case3 a b => simp [bezierLoopT]
  | case4 a b c => simp [bezierLoopT, isBezier]
  | case5 a b c d => simp [bezierLoopT, isBezier]
  | case6 a b c d e => simp [bezierLoopT, isBezier]
  | case7 a b c d e f rest ih =>
    simp only [bezierLoopT, List.forall_mem_cons]
    exact ⟨trivial, ih⟩

/-! Length of the tension expansion. -/

theorem expandAux_length (sq : ℚ → ℚ) (t : ℚ) (l : List (ℚ × ℚ)) :
    ∀ prev, (expandAux sq t prev l).length = 6 * (l.length - 1) := by
  induction l with
  | nil => intro prev; rfl
  | cons b tail ih =>
    intro prev
    cases tail with
    | nil => rfl
    | cons c rest =>
      simp only [expandAux, List.length_cons, ih b]
      omega

theorem expandPairs_length (sq : ℚ → ℚ) (t : ℚ) (ps : List (ℚ × ℚ)) :
    (expandPairs sq t ps).length = 6 * (ps.length - 2) := by
  cases ps with
  | nil => rfl
  | cons a rest =>
    simp only [expandPairs, expandAux_length, List.length_cons]
    omega

theorem expandPoints_flat_length (sq : ℚ → ℚ) (t : ℚ) (ps : List (ℚ × ℚ)) :
    (_expandPoints sq (flat ps) t).length = 6 * (ps.length - 2) := by
  rw [_expandPoints, toPairs_flat, expandPairs_length]

/-! Min/max fold lemmas for the bounding-box scan. -/

theorem foldl_min_min (l : List ℚ) :
    ∀ a x : ℚ, l.foldl min (min a x) = min a (l.foldl min x) := by
  induction l with
  | nil => intro a x; rfl
  | cons y ys ih =>
    intro a x
    simp only [List.foldl_cons]
    rw [min_assoc, ih]

theorem foldl_max_max (l : List ℚ) :
    ∀ a x : ℚ, l.foldl max (max a x) = max a (l.foldl max x) := by
  induction l with
  | nil => intro a x; rfl
  | cons y ys ih =>
    intro a x
    simp only [List.foldl_cons]
    rw [max_assoc, ih]

theorem minOf_cons (a : ℚ) (l : List ℚ) :
    minOf (a :: l) = some (l.foldl min a) := by
  induction l generalizing a with
  | nil => rfl
  | cons x xs ih =>
    show ominQ a (minOf (x :: xs)) = _
    rw [ih x]
    show some (min a (xs.foldl min x)) = some ((x :: xs).foldl min a)
    rw [List.foldl_cons, ← foldl_min_min]

theorem maxOf_cons (a : ℚ) (l : List ℚ) :
    maxOf (a :: l) = some (l.foldl max a) := by
  induction l generalizing a with
  | nil => rfl
  | cons x xs ih =>
    show omaxQ a (maxOf (x :: xs)) = _
    rw [ih x]
    show some (max a (xs.foldl max x)) = some ((x :: xs).foldl max a)
    rw [List.foldl_cons, ← foldl_max_max]

theorem minOf_perm {l1 l2 : List ℚ} (h : l1.Perm l2) : minOf l1 = minOf l2 :=
  h.foldr_eq none

theorem maxOf_perm {l1 l2 : List ℚ} (h : l1.Perm l2) : maxOf l1 = maxOf l2 :=
  h.foldr_eq none

theorem specBox_perm {ps qs : List (ℚ × ℚ)} (h : ps.Perm qs) :
    specBox ps = specBox qs := by
  unfold specBox
  rw [minOf_perm (h.map Prod.fst), maxOf_perm (h.map Prod.fst),
    minOf_perm (h.map Prod.snd), maxOf_perm (h.map Prod.snd)]

theorem specBox_cons (q : ℚ × ℚ) (rest : List (ℚ × ℚ)) :
    specBox (q :: rest)
      = some ⟨round ((rest.map Prod.fst).foldl min q.1),
          round ((rest.map Prod.snd).foldl min q.2),
          round ((rest.map Prod.fst).foldl max q.1
            - (rest.map Prod.fst).foldl min q.1),
          round ((rest.map Prod.snd).foldl max q.2
            - (rest.map Prod.snd).foldl min q.2)⟩ := by
  unfold specBox
  rw [List.map_cons, List.map_cons, minOf_cons, maxOf_cons, minOf_cons,
    maxOf_cons]

/-- The scan of a flat pair list computes the per-axis folds. -/
theorem minMaxScan_flat (ps : List (ℚ × ℚ)) :
    ∀ m : MinMax,
      minMaxScan (flat ps) m
        = ⟨(ps.map Prod.fst).foldl min m.minX,
           (ps.map Prod.fst).foldl max m.maxX,
           (ps.map Prod.snd).foldl min m.minY,
           (ps.map Prod.snd).foldl max m.maxY⟩ := by
  induction ps with
  | nil => intro m; rfl
  | cons q rest ih =>
    intro m
    rw [flat_cons]
    show minMaxScan (flat rest)
        ⟨min m.minX q.1, max m.maxX q.1, min m.minY q.2, max m.maxY q.2⟩ = _
    rw [ih]
    rfl

/-- `getSelfRect` computes exactly the spec's bounding box of the
selected point set. -/
theorem getSelfRect_eq_specBox (sq : ℚ → ℚ) (s : PolyLine)
    (ps : List (ℚ × ℚ))
    (h : (if s.tension ≠ 0 then _getTensionPoints sq s else s.exterior)
      = flat ps) :
    getSelfRect sq s = specBox ps := by
  unfold getSelfRect
  rw [h]
  cases ps with
  | nil => rfl
  | cons q rest =>
    have hf : flat (q :: rest) = q.1 :: q.2 :: flat rest := flat_cons q rest
    rw [hf]
    show some _ = _
    rw [← hf, minMaxScan_flat (q :: rest) ⟨q.1, q.1, q.2, q.2⟩, specBox_cons]
    simp only [List.map_cons, List.foldl_cons, min_self, max_self]

/-! Claim theorems. -/

/-- C1: the claim says every change to the point sequence (`exterior`),
`tension`, `closed` or `bezier` invalidates the memoized tension-point
cache before the next read, so `getTensionPoints` always equals a fresh
recomputation.  The code violates this: the `___init` subscription
listens for `pointsChange` while the point property fires
`exteriorChange`, so after caching for exterior `[0,0,1,0,2,0]` and then
assigning exterior `[0,0,5,0,9,0]`, `getTensionPoints` still returns the
stale expansion of the old exterior (its entry 2 is the old middle
x-coordinate 1, where a fresh recomputation has 5), for every host
square root. -/
theorem c1_exterior_change_leaves_stale_tension_cache (sq : ℚ → ℚ) :
    (getTensionPoints sq (c1TraceState sq)).1.get? 2 = some 1
    ∧ (_getTensionPoints sq (c1TraceState sq)).get? 2 = some 5
    ∧ (getTensionPoints sq (c1TraceState sq)).1
        ≠ _getTensionPoints sq (c1TraceState sq) := by
  have h1 : (getTensionPoints sq (c1TraceState sq)).1.get? 2 = some 1 := rfl
  have h2 : (_getTensionPoints sq (c1TraceState sq)).get? 2 = some 5 := rfl
  refine ⟨h1, h2, fun h => ?_⟩
  rw [h, h2] at h1
  exact absurd (Option.some.inj h1) (by norm_num)

/-- C4: per-ring dispatch is priority-ordered exactly as the spec's
resolved-mode emitter (empty, then tension with more than two points,
then bezier, then straight); straight mode emits one `moveTo` then one
`lineTo` per remaining point in order; and the two-point example
`[0,0,10,0]` with tension 5 falls back to straight rendering. -/
theorem c4_dispatch_priority :
    (∀ (sq : ℚ → ℚ) (s : PolyLine) (points : List ℚ),
      _renderLine sq s points = specRender sq s points)
    ∧ (∀ (sq : ℚ → ℚ) (ints : List (List ℚ)) (cl : Bool) (q : ℚ × ℚ)
        (ps : List (ℚ × ℚ)),
        _renderLine sq (mkPolyLine (flat (q :: ps)) ints 0 cl false)
            (flat (q :: ps))
          = Prim.moveTo (some q.1) (some q.2)
            :: (ps.map fun r => Prim.lineTo (some r.1) (some r.2)))
    ∧ (∀ sq : ℚ → ℚ,
        _renderLine sq (mkPolyLine [0, 0, 10, 0] [] 5 false false)
            [0, 0, 10, 0]
          = [Prim.moveTo (some 0) (some 0), Prim.lineTo (some 10) (some 0)]) := by
  refine ⟨fun sq s points => ?_, fun sq ints cl q ps => ?_, fun sq => ?_⟩
  · rw [_renderLine, specRender, resolveMode]
    split_ifs <;> rfl
  · have hf : flat (q :: ps) = q.1 :: q.2 :: flat ps := flat_cons q ps
    rw [_renderLine, hf]
    rw [if_neg (by simp)]
    rw [if_neg (by simp [mkPolyLine]), if_neg (by simp [mkPolyLine])]
    show Prim.moveTo (some q.1) (some q.2) :: straightTail (flat ps) = _
    rw [straightTail_flat]
  · rfl

/-- C8: with tension 0 the bounding box is invariant under rotating
which point of the ring is first (stated for every rotation amount and
every ring, including without the claim's nonemptiness restriction). -/
theorem c8_self_rect_rotation_invariant (sq : ℚ → ℚ) (ps : List (ℚ × ℚ))
    (k : ℕ) (ints : List (List ℚ)) (cl bz : Bool) :
    getSelfRect sq (mkPolyLine (flat (ps.rotate k)) ints 0 cl bz)
      = getSelfRect sq (mkPolyLine (flat ps) ints 0 cl bz) := by
  rw [getSelfRect_eq_specBox sq _ (ps.rotate k) (by simp [mkPolyLine]),
    getSelfRect_eq_specBox sq _ ps (by simp [mkPolyLine]),
    specBox_perm (List.rotate_perm ps k)]

/-- C9: the indexed interior accessor returns the ring at the index when
called with one argument, replaces the ring and returns the shape when
called with two, and any other argument count fails with the error
while leaving the shape state unchanged. -/
theorem c9_interior_accessor :
    (∀ (s : PolyLine) (i : ℕ),
      PolyLine.interior s [JsArg.num i]
        = (Except.ok (InteriorResult.ringVal (s.interiors.get? i)), s))
    ∧ (∀ (s : PolyLine) (i : ℕ) (r : List ℚ), i < s.interiors.length →
        PolyLine.interior s [JsArg.num i, JsArg.arr r]
          = (Except.ok InteriorResult.self,
             setInteriors (s.interiors.set i r) s))
    ∧ (∀ (s : PolyLine) (args : List JsArg),
        args.length ≠ 1 → args.length ≠ 2 →
        PolyLine.interior s args
          = (Except.error "Unknown operation polyline", s)) := by
  refine ⟨fun s i => rfl, fun s i r h => ?_, fun s args h1 h2 => ?_⟩
  · rw [PolyLine.interior]
    rw [if_neg (by simp), if_pos (by simp)]
    show (_, setInteriors (jsIndexWrite s.interiors (JsArg.num i) (JsArg.arr r)) s) = _
    rw [jsIndexWrite, if_pos h]
  · rw [PolyLine.interior, if_neg h1, if_neg h2]

/-- C9 witness: a concrete write at index 0 and a concrete zero-argument
error call on a shape with two interior rings. -/
theorem c9_interior_accessor_witness :
    PolyLine.interior (mkPolyLine [] [[1, 2], [3, 4]] 0 false false)
        [JsArg.num 0, JsArg.arr [5, 6]]
      = (Except.ok InteriorResult.self,
         setInteriors ((mkPolyLine [] [[1, 2], [3, 4]] 0 false false).interiors.set 0 [5, 6])
           (mkPolyLine [] [[1, 2], [3, 4]] 0 false false))
    ∧ PolyLine.interior (mkPolyLine [] [[1, 2], [3, 4]] 0 false false) []
      = (Except.error "Unknown operation polyline",
         mkPolyLine [] [[1, 2], [3, 4]] 0 false false) :=
  ⟨c9_interior_accessor.2.1 (mkPolyLine [] [[1, 2], [3, 4]] 0 false false) 0
      [5, 6] (by decide),
   c9_interior_accessor.2.2 (mkPolyLine [] [[1, 2], [3, 4]] 0 false false) []
      (by decide) (by decide)⟩

/-- C7: the bounding box scans the tension-expanded points when
tension ≠ 0 and the raw exterior otherwise, equals the spec's per-axis
min/max box with rounding applied once at the end, never depends on the
interior rings, and gives `{0, 0, 100, 100}` on the documented
example. -/
theorem c7_self_rect (sq : ℚ → ℚ) (s : PolyLine) :
    (∀ ps : List (ℚ × ℚ), s.tension = 0 → s.exterior = flat ps →
      getSelfRect sq s = specBox ps)
    ∧ (∀ qs : List (ℚ × ℚ), s.tension ≠ 0 →
        _getTensionPoints sq s = flat qs → getSelfRect sq s = specBox qs)
    ∧ (∀ l : List (List ℚ),
        getSelfRect sq { s with interiors := l } = getSelfRect sq s)
    ∧ getSelfRect sq
        (mkPolyLine [0, 0, 100, 0, 100, 100, 0, 100]
          [[25, 25, 75, 25, 75, 75, 25, 75]] 0 true false)
      = some ⟨0, 0, 100, 100⟩ := by
  refine ⟨fun ps h0 hext => ?_, fun qs ht htp => ?_, fun l => rfl, ?_⟩
  · exact getSelfRect_eq_specBox sq s ps (by simp [h0, hext])
  · exact getSelfRect_eq_specBox sq s qs (by simp [ht, htp])
  · have h : getSelfRect sq
        (mkPolyLine [0, 0, 100, 0, 100, 100, 0, 100]
          [[25, 25, 75, 25, 75, 75, 25, 75]] 0 true false)
        = some ⟨round (0 : ℚ), round (0 : ℚ), round ((100 : ℚ) - 0),
            round ((100 : ℚ) - 0)⟩ := rfl
    rw [h]
    norm_num

/-- C7 witness: the tension-0 selection conjunct applied to a concrete
triangle ring, and the tension-≠-0 selection conjunct applied to a state
whose tension expansion evaluates concretely (degenerate square root,
so the expansion is `[1,0,1,0,1,0]`). -/
theorem c7_self_rect_witness :
    getSelfRect idQ (mkPolyLine (flat [(0, 0), (2, 0), (2, 2)]) [] 0 false false)
      = specBox [(0, 0), (2, 0), (2, 2)]
    ∧ getSelfRect sqZero (mkPolyLine (flat [(0, 0), (1, 0), (2, 0)]) [] 1 false false)
      = specBox [(1, 0), (1, 0), (1, 0)] :=
  ⟨(c7_self_rect idQ (mkPolyLine (flat [(0, 0), (2, 0), (2, 2)]) [] 0 false false)).1
      [(0, 0), (2, 0), (2, 2)] rfl rfl,
   (c7_self_rect sqZero (mkPolyLine (flat [(0, 0), (1, 0), (2, 0)]) [] 1 false false)).2.1
      [(1, 0), (1, 0), (1, 0)] (by decide) (by decide)⟩

/-- C10: the bounding-box computation has no emptiness guard: it is
`none` (NaN fields in JS) for the default empty exterior with tension 0
and whenever the selected tension expansion is empty (which happens for
an open exterior of fewer than three points), and for every non-empty
even-length selected point set it returns a well-defined box. -/
theorem c10_self_rect_totality (sq : ℚ → ℚ) (s : PolyLine) :
    (s.tension = 0 → s.exterior = [] → getSelfRect sq s = none)
    ∧ (s.tension ≠ 0 → _getTensionPoints sq s = [] → getSelfRect sq s = none)
    ∧ (∀ ps : List (ℚ × ℚ), s.tension ≠ 0 → s.closed = false →
        s.exterior = flat ps → ps.length < 3 → _getTensionPoints sq s = [])
    ∧ (∀ ps : List (ℚ × ℚ), ps ≠ [] →
        (if s.tension ≠ 0 then _getTensionPoints sq s else s.exterior)
          = flat ps →
        ∃ b : SelfRect, getSelfRect sq s = some b) := by
  refine ⟨fun h0 hext => ?_, fun ht htp => ?_,
    fun ps ht hcl hext hlen => ?_, fun ps hne hsel => ?_⟩
  · have h := getSelfRect_eq_specBox sq s [] (by simp [h0, hext, flat])
    rw [h]; rfl
  · have h := getSelfRect_eq_specBox sq s [] (by simp [ht, htp, flat])
    rw [h]; rfl
  · rw [_getTensionPoints, hcl]
    simp only [Bool.false_eq_true, if_false]
    rw [hext, _expandPoints, toPairs_flat]
    have h6 := expandPairs_length sq s.tension ps
    have hz : (expandPairs sq s.tension ps).length = 0 := by omega
    exact List.eq_nil_of_length_eq_zero hz
  · cases ps with
    | nil => exact absurd rfl hne
    | cons q rest =>
      rw [getSelfRect_eq_specBox sq s (q :: rest) hsel, specBox_cons]
      exact ⟨_, rfl⟩

/-- C10 witness: the default empty exterior with tension 0, a two-point
open exterior with tension 1 (empty expansion, undefined box), and a
non-empty selection giving a well-defined box. -/
theorem c10_self_rect_totality_witness :
    getSelfRect idQ defaultPolyLine = none
    ∧ _getTensionPoints idQ (mkPolyLine (flat [(0, 0), (1, 0)]) [] 1 false false) = []
    ∧ getSelfRect idQ (mkPolyLine (flat [(0, 0), (1, 0)]) [] 1 false false) = none
    ∧ ∃ b : SelfRect,
        getSelfRect idQ (mkPolyLine (flat [(0, 0), (3, 4)]) [] 0 false false)
          = some b :=
  ⟨(c10_self_rect_totality idQ defaultPolyLine).1 rfl rfl,
   (c10_self_rect_totality idQ
        (mkPolyLine (flat [(0, 0), (1, 0)]) [] 1 false false)).2.2.1
      [(0, 0), (1, 0)] (by decide) rfl rfl (by decide),
   (c10_self_rect_totality idQ
        (mkPolyLine (flat [(0, 0), (1, 0)]) [] 1 false false)).2.1
      (by decide) (by decide),
   (c10_self_rect_totality idQ
        (mkPolyLine (flat [(0, 0), (3, 4)]) [] 0 false false)).2.2.2
      [(0, 0), (3, 4)] (by decide) rfl⟩

/-- The source's indexed loop over interior rings equals the recursive
amended-claim block list. -/
theorem interiorBlocksAmended_eq (sq : ℚ → ℚ) (s : PolyLine)
    (l : List (List ℚ)) :
    (l.flatMap fun r =>
        _renderLine sq s r
          ++ [Prim.lineTo (r.get? 0) (r.get? 1),
              Prim.moveTo (s.exterior.get? (s.exterior.length - 2))
                (s.exterior.get? (s.exterior.length - 1))])
      = interiorBlocksAmended sq s l := by
  induction l with
  | nil => rfl
  | cons r rest ih =>
    rw [List.flatMap_cons, ih]
    rfl

/-- C2 counterexample: on the documented square-with-square-hole input
the scene function emits, after the hole's ring primitives, a drawn
line to the hole's own first point `(25, 25)` and not the drawn line
out to the exterior's last point `(0, 100)` that the claim describes;
the claim's described emission therefore differs from the code's. -/
theorem c2_cut_line_counterexample :
    _sceneFunc idQ
        (mkPolyLine [0, 0, 100, 0, 100, 100, 0, 100]
          [[25, 25, 75, 25, 75, 75, 25, 75]] 0 true false)
      = [Prim.beginPath,
         Prim.moveTo (some 0) (some 0), Prim.lineTo (some 100) (some 0),
         Prim.lineTo (some 100) (some 100), Prim.lineTo (some 0) (some 100),
         Prim.moveTo (some 25) (some 25), Prim.lineTo (some 75) (some 25),
         Prim.lineTo (some 75) (some 75), Prim.lineTo (some 25) (some 75),
         Prim.lineTo (some 25) (some 25),
         Prim.moveTo (some 0) (some 100),
         Prim.lineTo (some 0) (some 0),
         Prim.fillStrokeShape]
    ∧ specSceneClaimed idQ
        (mkPolyLine [0, 0, 100, 0, 100, 100, 0, 100]
          [[25, 25, 75, 25, 75, 75, 25, 75]] 0 true false)
      = [Prim.beginPath,
         Prim.moveTo (some 0) (some 0), Prim.lineTo (some 100) (some 0),
         Prim.lineTo (some 100) (some 100), Prim.lineTo (some 0) (some 100),
         Prim.moveTo (some 25) (some 25), Prim.lineTo (some 75) (some 25),
         Prim.lineTo (some 75) (some 75), Prim.lineTo (some 25) (some 75),
         Prim.lineTo (some 0) (some 100),
         Prim.moveTo (some 0) (some 100),
         Prim.lineTo (some 0) (some 0),
         Prim.fillStrokeShape]
    ∧ _sceneFunc idQ
        (mkPolyLine [0, 0, 100, 0, 100, 100, 0, 100]
          [[25, 25, 75, 25, 75, 75, 25, 75]] 0 true false)
      ≠ specSceneClaimed idQ
        (mkPolyLine [0, 0, 100, 0, 100, 100, 0, 100]
          [[25, 25, 75, 25, 75, 75, 25, 75]] 0 true false) :=
  ⟨by decide, by decide, by decide⟩

/-- C2 amended: the scene emission is the exterior's primitives, then
for each interior ring in insertion order that ring's primitives, a
drawn line segment back to that interior ring's own first point, and an
undrawn move to the exterior's last point; then, if closed and at least
one interior exists, a drawn line to the exterior's first point followed
by fill-and-stroke, if closed with no interiors a native close followed
by fill-and-stroke, and if not closed a stroke-only terminal. -/
theorem c2_scene_emission_amended (sq : ℚ → ℚ) (s : PolyLine) :
    _sceneFunc sq s = specSceneAmended sq s := by
  rw [_sceneFunc, specSceneAmended, sceneTerminal, ← interiorBlocksAmended_eq]

/-- C3 counterexample: for the six-point sequence
`[0,0,1,1,2,2,3,3,4,4,5,5]` with tension 0 and bezier true, the points
after the first form one complete group of three plus two trailing
points; the claim says the trailing points are ignored without reading
past the end, but the code emits a second `bezierCurveTo` whose last
two coordinates are read past the end of the sequence (undefined). -/
theorem c3_trailing_group_counterexample :
    _renderLine idQ
        (mkPolyLine [0, 0, 1, 1, 2, 2, 3, 3, 4, 4, 5, 5] [] 0 false true)
        [0, 0, 1, 1, 2, 2, 3, 3, 4, 4, 5, 5]
      = [Prim.moveTo (some 0) (some 0),
         Prim.bezierCurveTo (some 1) (some 1) (some 2) (some 2) (some 3)
           (some 3),
         Prim.bezierCurveTo (some 4) (some 4) (some 5) (some 5) none none]
    ∧ claimC3Render [0, 0, 1, 1, 2, 2, 3, 3, 4, 4, 5, 5]
      = [Prim.moveTo (some 0) (some 0),
         Prim.bezierCurveTo (some 1) (some 1) (some 2) (some 2) (some 3)
           (some 3)]
    ∧ _renderLine idQ
        (mkPolyLine [0, 0, 1, 1, 2, 2, 3, 3, 4, 4, 5, 5] [] 0 false true)
        [0, 0, 1, 1, 2, 2, 3, 3, 4, 4, 5, 5]
      ≠ claimC3Render [0, 0, 1, 1, 2, 2, 3, 3, 4, 4, 5, 5] :=
  ⟨by decide, by decide, by decide⟩

/-- C3 amended: in bezier mode (tension 0, bezier true) the emission is
one `moveTo` then a chain of `bezierCurveTo` primitives, one per group
of up to three points after the first; a trailing incomplete group still
emits a final `bezierCurveTo` whose missing coordinates are undefined
reads past the end of the sequence, so the chain has ⌈(N-1)/3⌉ curves
for N points; in particular a 7-point sequence yields exactly one
`moveTo` and two `bezierCurveTo` calls reading nothing past the end. -/
theorem c3_bezier_emission_amended :
    (∀ (sq : ℚ → ℚ) (ints : List (List ℚ)) (cl : Bool) (q : ℚ × ℚ)
        (ps : List (ℚ × ℚ)),
      ∃ chain : List Prim,
        _renderLine sq (mkPolyLine (flat (q :: ps)) ints 0 cl true)
            (flat (q :: ps))
          = Prim.moveTo (some q.1) (some q.2) :: chain
        ∧ (∀ pr ∈ chain, isBezier pr)
        ∧ chain.length = (2 * (q :: ps).length + 3) / 6)
    ∧ (∀ (sq : ℚ → ℚ) (ints : List (List ℚ)) (cl : Bool)
        (x0 y0 x1 y1 x2 y2 x3 y3 x4 y4 x5 y5 x6 y6 : ℚ),
        _renderLine sq
            (mkPolyLine [x0, y0, x1, y1, x2, y2, x3, y3, x4, y4, x5, y5,
              x6, y6] ints 0 cl true)
            [x0, y0, x1, y1, x2, y2, x3, y3, x4, y4, x5, y5, x6, y6]
          = [Prim.moveTo (some x0) (some y0),
             Prim.bezierCurveTo (some x1) (some y1) (some x2) (some y2)
               (some x3) (some y3),
             Prim.bezierCurveTo (some x4) (some y4) (some x5) (some y5)
               (some x6) (some y6)]) := by
  constructor
  · intro sq ints cl q ps
    refine ⟨bezierTail ((flat (q :: ps)).drop 2), ?_, bezierTail_all_bezier _,
      ?_⟩
    · have hf : flat (q :: ps) = q.1 :: q.2 :: flat ps := flat_cons q ps
      rw [_renderLine, hf, if_neg (by simp), if_neg (by simp [mkPolyLine])]
      rfl
    · rw [bezierTail_length, List.length_drop, flat_length]
      simp only [List.length_cons]
      omega
  · intro sq ints cl x0 y0 x1 y1 x2 y2 x3 y3 x4 y4 x5 y5 x6 y6
    rfl

/-- Unfolding of `_renderLine` in open tension mode. -/
theorem renderLine_tension_open (sq : ℚ → ℚ) (s : PolyLine)
    (points : List ℚ) (hcl : s.closed = false) (ht : s.tension ≠ 0)
    (h4 : 4 < points.length) :
    _renderLine sq s points
      = Prim.moveTo (points.get? 0) (points.get? 1)
        :: Prim.quadraticCurveTo ((tensionPointsVal sq s).get? 0)
            ((tensionPointsVal sq s).get? 1) ((tensionPointsVal sq s).get? 2)
            ((tensionPointsVal sq s).get? 3)
        :: (bezierLoopT ((tensionPointsVal sq s).drop 4)
          ++ [Prim.quadraticCurveTo
                ((tensionPointsVal sq s).get?
                  ((tensionPointsVal sq s).length - 2))
                ((tensionPointsVal sq s).get?
                  ((tensionPointsVal sq s).length - 1))
                (points.get? (points.length - 2))
                (points.get? (points.length - 1))]) := by
  rw [_renderLine, if_neg (by omega), if_pos ⟨ht, h4⟩, tensionEmit, hcl]
  rfl

/-- Unfolding of `_renderLine` in closed tension mode. -/
theorem renderLine_tension_closed (sq : ℚ → ℚ) (s : PolyLine)
    (points : List ℚ) (hcl : s.closed = true) (ht : s.tension ≠ 0)
    (h4 : 4 < points.length) :
    _renderLine sq s points
      = Prim.moveTo (points.get? 0) (points.get? 1)
        :: bezierLoopT (tensionPointsVal sq s) := by
  rw [_renderLine, if_neg (by omega), if_pos ⟨ht, h4⟩, tensionEmit, hcl]
  rfl

/-- C5: for an open ring of N ≥ 3 points with tension ≠ 0, the emission
after the initial `moveTo` begins with one `quadraticCurveTo`, continues
with exactly N - 3 `bezierCurveTo` calls, and ends with one
`quadraticCurveTo` whose endpoint is the ring's last point. -/
theorem c5_open_tension_emission (sq : ℚ → ℚ) (t : ℚ)
    (ints : List (List ℚ)) (bz : Bool) (ps : List (ℚ × ℚ)) (ht : t ≠ 0)
    (hN : 3 ≤ ps.length) :
    ∃ (q1 q2 q3 q4 c1 c2 : Option ℚ) (mid : List Prim),
      _renderLine sq (mkPolyLine (flat ps) ints t false bz) (flat ps)
        = Prim.moveTo ((flat ps).get? 0) ((flat ps).get? 1)
          :: Prim.quadraticCurveTo q1 q2 q3 q4
          :: (mid
            ++ [Prim.quadraticCurveTo c1 c2
                  (some (ps.getD (ps.length - 1) (0, 0)).1)
                  (some (ps.getD (ps.length - 1) (0, 0)).2)])
      ∧ mid.length = ps.length - 3
      ∧ ∀ pr ∈ mid, isBezier pr := by
  have hlen : (flat ps).length = 2 * ps.length := flat_length ps
  have h4 : 4 < (flat ps).length := by omega
  have hN1 : ps.length - 1 < ps.length := by omega
  have hrl := renderLine_tension_open sq
    (mkPolyLine (flat ps) ints t false bz) (flat ps) rfl ht h4
  have hidx2 : (flat ps).length - 2 = 2 * (ps.length - 1) := by omega
  have hidx1 : (flat ps).length - 1 = 2 * (ps.length - 1) + 1 := by omega
  have he : (flat ps).get? ((flat ps).length - 2)
      = some (ps.getD (ps.length - 1) (0, 0)).1 := by
    rw [hidx2, flat_get?_even, List.get?_eq_get hN1, List.getD_eq_get?,
      List.get?_eq_get hN1]
    rfl
  have ho : (flat ps).get? ((flat ps).length - 1)
      = some (ps.getD (ps.length - 1) (0, 0)).2 := by
    rw [hidx1, flat_get?_odd, List.get?_eq_get hN1, List.getD_eq_get?,
      List.get?_eq_get hN1]
    rfl
  have htp : (tensionPointsVal sq (mkPolyLine (flat ps) ints t false bz)).length
      = 6 * (ps.length - 2) := by
    show (_expandPoints sq (flat ps) t).length = _
    exact expandPoints_flat_length sq t ps
  refine ⟨(tensionPointsVal sq (mkPolyLine (flat ps) ints t false bz)).get? 0,
    (tensionPointsVal sq (mkPolyLine (flat ps) ints t false bz)).get? 1,
    (tensionPointsVal sq (mkPolyLine (flat ps) ints t false bz)).get? 2,
    (tensionPointsVal sq (mkPolyLine (flat ps) ints t false bz)).get? 3,
    (tensionPointsVal sq (mkPolyLine (flat ps) ints t false bz)).get?
      ((tensionPointsVal sq (mkPolyLine (flat ps) ints t false bz)).length - 2),
    (tensionPointsVal sq (mkPolyLine (flat ps) ints t false bz)).get?
      ((tensionPointsVal sq (mkPolyLine (flat ps) ints t false bz)).length - 1),
    bezierLoopT ((tensionPointsVal sq (mkPolyLine (flat ps) ints t false bz)).drop 4),
    ?_, ?_, bezierLoopT_all_bezier _⟩
  · rw [hrl, he, ho]
  · rw [bezierLoopT_length, List.length_drop, htp]
    omega

/-- C5 witness: the theorem applied at tension 1 and the concrete open
triangle `[(0,0),(1,0),(2,0)]`. -/
theorem c5_open_tension_emission_witness :
    ∃ (q1 q2 q3 q4 c1 c2 : Option ℚ) (mid : List Prim),
      _renderLine idQ
          (mkPolyLine (flat [(0, 0), (1, 0), (2, 0)]) [] 1 false false)
          (flat [(0, 0), (1, 0), (2, 0)])
        = Prim.moveTo ((flat [(0, 0), (1, 0), (2, 0)]).get? 0)
            ((flat [(0, 0), (1, 0), (2, 0)]).get? 1)
          :: Prim.quadraticCurveTo q1 q2 q3 q4
          :: (mid
            ++ [Prim.quadraticCurveTo c1 c2
                  (some (([(0, 0), (1, 0), (2, 0)] : List (ℚ × ℚ)).getD
                    (([(0, 0), (1, 0), (2, 0)] : List (ℚ × ℚ)).length - 1)
                    (0, 0)).1)
                  (some (([(0, 0), (1, 0), (2, 0)] : List (ℚ × ℚ)).getD
                    (([(0, 0), (1, 0), (2, 0)] : List (ℚ × ℚ)).length - 1)
                    (0, 0)).2)])
      ∧ mid.length = ([(0, 0), (1, 0), (2, 0)] : List (ℚ × ℚ)).length - 3
      ∧ ∀ pr ∈ mid, isBezier pr :=
  c5_open_tension_emission idQ 1 [] false [(0, 0), (1, 0), (2, 0)]
    (by decide) (by decide)

/-- The wraparound control points at the ring's first point
(previous = last point, current = first point, next = second point), as
claim C6 / spec 4.2 describe the closed case. -/
def wrapFirstCP (sq : ℚ → ℚ) (t : ℚ) (ps : List (ℚ × ℚ)) : ControlPair :=
  _getControlPoints sq (ps.getD (ps.length - 1) (0, 0)).1
    (ps.getD (ps.length - 1) (0, 0)).2 (ps.getD 0 (0, 0)).1
    (ps.getD 0 (0, 0)).2 (ps.getD 1 (0, 0)).1 (ps.getD 1 (0, 0)).2 t

/-- The wraparound control points at the ring's last point
(previous = second-to-last point, current = last point, next = first
point). -/
def wrapLastCP (sq : ℚ → ℚ) (t : ℚ) (ps : List (ℚ × ℚ)) : ControlPair :=
  _getControlPoints sq (ps.getD (ps.length - 2) (0, 0)).1
    (ps.getD (ps.length - 2) (0, 0)).2 (ps.getD (ps.length - 1) (0, 0)).1
    (ps.getD (ps.length - 1) (0, 0)).2 (ps.getD 0 (0, 0)).1
    (ps.getD 0 (0, 0)).2 t

theorem flat_getD_idx0 (ps : List (ℚ × ℚ)) (h : 0 < ps.length) :
    (flat ps).getD 0 0 = (ps.getD 0 (0, 0)).1 := flat_getD_even ps 0 h

theorem flat_getD_idx1 (ps : List (ℚ × ℚ)) (h : 0 < ps.length) :
    (flat ps).getD 1 0 = (ps.getD 0 (0, 0)).2 := flat_getD_odd ps 0 h

theorem flat_getD_idx2 (ps : List (ℚ × ℚ)) (h : 1 < ps.length) :
    (flat ps).getD 2 0 = (ps.getD 1 (0, 0)).1 := flat_getD_even ps 1 h

theorem flat_getD_idx3 (ps : List (ℚ × ℚ)) (h : 1 < ps.length) :
    (flat ps).getD 3 0 = (ps.getD 1 (0, 0)).2 := flat_getD_odd ps 1 h

/-- C6: for a closed ring of N ≥ 3 points with tension ≠ 0, the closed
tension-point list is the open expansion with the wraparound control
points (computed for the last→first segment) spliced at its start and
end, and the emission after the initial `moveTo` consists of
`bezierCurveTo` calls only — exactly N of them, one per segment
including the wraparound, with no `quadraticCurveTo`. -/
theorem c6_closed_tension_emission (sq : ℚ → ℚ) (t : ℚ)
    (ints : List (List ℚ)) (bz : Bool) (ps : List (ℚ × ℚ)) (ht : t ≠ 0)
    (hN : 3 ≤ ps.length) :
    _getTensionPointsClosed sq (flat ps) t
      = [(wrapFirstCP sq t ps).p2x, (wrapFirstCP sq t ps).p2y]
        ++ _expandPoints sq (flat ps) t
        ++ [(wrapLastCP sq t ps).p1x, (wrapLastCP sq t ps).p1y,
            (ps.getD (ps.length - 1) (0, 0)).1,
            (ps.getD (ps.length - 1) (0, 0)).2,
            (wrapLastCP sq t ps).p2x, (wrapLastCP sq t ps).p2y,
            (wrapFirstCP sq t ps).p1x, (wrapFirstCP sq t ps).p1y,
            (ps.getD 0 (0, 0)).1, (ps.getD 0 (0, 0)).2]
    ∧ ∃ mid : List Prim,
        _renderLine sq (mkPolyLine (flat ps) ints t true bz) (flat ps)
          = Prim.moveTo ((flat ps).get? 0) ((flat ps).get? 1) :: mid
        ∧ mid.length = ps.length
        ∧ ∀ pr ∈ mid, isBezier pr := by
  have hlen : (flat ps).length = 2 * ps.length := flat_length ps
  have hN1 : ps.length - 1 < ps.length := by omega
  have hN2 : ps.length - 2 < ps.length := by omega
  have h0 : 0 < ps.length := by omega
  have h1 : 1 < ps.length := by omega
  have hidx2 : (flat ps).length - 2 = 2 * (ps.length - 1) := by omega
  have hidx1 : (flat ps).length - 1 = 2 * (ps.length - 1) + 1 := by omega
  have hidx4 : (flat ps).length - 4 = 2 * (ps.length - 2) := by omega
  have hidx3 : (flat ps).length - 3 = 2 * (ps.length - 2) + 1 := by omega
  have hsplice : _getTensionPointsClosed sq (flat ps) t
      = [(wrapFirstCP sq t ps).p2x, (wrapFirstCP sq t ps).p2y]
        ++ _expandPoints sq (flat ps) t
        ++ [(wrapLastCP sq t ps).p1x, (wrapLastCP sq t ps).p1y,
            (ps.getD (ps.length - 1) (0, 0)).1,
            (ps.getD (ps.length - 1) (0, 0)).2,
            (wrapLastCP sq t ps).p2x, (wrapLastCP sq t ps).p2y,
            (wrapFirstCP sq t ps).p1x, (wrapFirstCP sq t ps).p1y,
            (ps.getD 0 (0, 0)).1, (ps.getD 0 (0, 0)).2] := by
    rw [_getTensionPointsClosed, wrapFirstCP, wrapLastCP]
    rw [hidx2, hidx1, hidx4, hidx3,
      flat_getD_even ps (ps.length - 1) hN1, flat_getD_odd ps (ps.length - 1) hN1,
      flat_getD_even ps (ps.length - 2) hN2, flat_getD_odd ps (ps.length - 2) hN2,
      flat_getD_idx0 ps h0, flat_getD_idx1 ps h0, flat_getD_idx2 ps h1,
      flat_getD_idx3 ps h1]
  refine ⟨hsplice, bezierLoopT
      (tensionPointsVal sq (mkPolyLine (flat ps) ints t true bz)), ?_, ?_,
    bezierLoopT_all_bezier _⟩
  · exact renderLine_tension_closed sq _ (flat ps) rfl ht (by omega)
  · have htp : (tensionPointsVal sq (mkPolyLine (flat ps) ints t true bz)).length
        = 6 * ps.length := by
      show (_getTensionPointsClosed sq (flat ps) t).length = _
      rw [hsplice]
      simp only [List.length_append, List.length_cons, List.length_nil,
        expandPoints_flat_length]
      omega
    rw [bezierLoopT_length, htp]
    omega

/-- C6 witness: the theorem applied at tension 1 and the concrete closed
triangle `[(0,0),(4,0),(2,3)]`. -/
theorem c6_closed_tension_emission_witness :
    _getTensionPointsClosed idQ (flat [(0, 0), (4, 0), (2, 3)]) 1
      = [(wrapFirstCP idQ 1 [(0, 0), (4, 0), (2, 3)]).p2x,
         (wrapFirstCP idQ 1 [(0, 0), (4, 0), (2, 3)]).p2y]
        ++ _expandPoints idQ (flat [(0, 0), (4, 0), (2, 3)]) 1
        ++ [(wrapLastCP idQ 1 [(0, 0), (4, 0), (2, 3)]).p1x,
            (wrapLastCP idQ 1 [(0, 0), (4, 0), (2, 3)]).p1y,
            (([(0, 0), (4, 0), (2, 3)] : List (ℚ × ℚ)).getD
              (([(0, 0), (4, 0), (2, 3)] : List (ℚ × ℚ)).length - 1) (0, 0)).1,
            (([(0, 0), (4, 0), (2, 3)] : List (ℚ × ℚ)).getD
              (([(0, 0), (4, 0), (2, 3)] : List (ℚ × ℚ)).length - 1) (0, 0)).2,
            (wrapLastCP idQ 1 [(0, 0), (4, 0), (2, 3)]).p2x,
            (wrapLastCP idQ 1 [(0, 0), (4, 0), (2, 3)]).p2y,
            (wrapFirstCP idQ 1 [(0, 0), (4, 0), (2, 3)]).p1x,
            (wrapFirstCP idQ 1 [(0, 0), (4, 0), (2, 3)]).p1y,
            (([(0, 0), (4, 0), (2, 3)] : List (ℚ × ℚ)).getD 0 (0, 0)).1,
            (([(0, 0), (4, 0), (2, 3)] : List (ℚ × ℚ)).getD 0 (0, 0)).2]
    ∧ ∃ mid : List Prim,
        _renderLine idQ
            (mkPolyLine (flat [(0, 0), (4, 0), (2, 3)]) [] 1 true false)
            (flat [(0, 0), (4, 0), (2, 3)])
          = Prim.moveTo ((flat [(0, 0), (4, 0), (2, 3)]).get? 0)
              ((flat [(0, 0), (4, 0), (2, 3)]).get? 1) :: mid
        ∧ mid.length = ([(0, 0), (4, 0), (2, 3)] : List (ℚ × ℚ)).length
        ∧ ∀ pr ∈ mid, isBezier pr :=
  c6_closed_tension_emission idQ 1 [] false [(0, 0), (4, 0), (2, 3)]
    (by decide) (by decide)
